import Mathlib

/-!
Verification of the time-varying instance-transform subsystem
(`kernels/common/scene_instance.cpp`): conservative motion-blur bounds
correction, the keyframe transform store and its interpolation-mode state
machine.  Machine floats are modelled as exact rationals; the sentinel
"positive infinity in a fixed field" marking an unset quaternion
decomposition is modelled by `Option.none`.
-/

namespace EmbreeInstance

/-- A 3D vector (models `Vec3fa`, single-precision floats modelled as ℚ). -/
abbrev Vec3 : Type := Fin 3 → ℚ

/-- The linear part of an affine transform, stored as three column vectors
`vx`, `vy`, `vz` exactly like embree's `LinearSpace3fa`. -/
@[ext]
structure LinSpace3 where
  vx : Vec3
  vy : Vec3
  vz : Vec3
deriving DecidableEq

/-- An affine transform: linear 3×3 part plus translation (`AffineSpace3fa`). -/
@[ext]
structure Aff3 where
  l : LinSpace3
  p : Vec3
deriving DecidableEq

/-- An axis-aligned bounding box (`BBox3fa`). -/
@[ext]
structure BBox3 where
  lower : Vec3
  upper : Vec3
deriving DecidableEq

/-- The identity affine transform (`one`). -/
def affId : Aff3 := ⟨⟨![1,0,0], ![0,1,0], ![0,0,1]⟩, ![0,0,0]⟩

/-- Componentwise difference of linear parts (`operator-` on `LinearSpace3`). -/
def subLin (a b : LinSpace3) : LinSpace3 := ⟨a.vx - b.vx, a.vy - b.vy, a.vz - b.vz⟩

/-- Componentwise difference of affine transforms (`operator-` on `AffineSpace3`). -/
def subAff (a b : Aff3) : Aff3 := ⟨subLin a.l b.l, a.p - b.p⟩

/-- Application of the linear part to a vector (`xfmVector`):
`M.vx*v.x + M.vy*v.y + M.vz*v.z`. -/
def xfmVector (m : LinSpace3) (v : Vec3) : Vec3 :=
  fun d => m.vx d * v 0 + m.vy d * v 1 + m.vz d * v 2

/-- Application of an affine transform to a point (`xfmPoint`). -/
def xfmPoint (m : Aff3) (v : Vec3) : Vec3 :=
  fun d => m.l.vx d * v 0 + m.l.vy d * v 1 + m.l.vz d * v 2 + m.p d

/-- Scalar linear blend (`lerp(a,b,t) = (1-t)*a + t*b`). -/
def lerpQ (a b t : ℚ) : ℚ := (1 - t) * a + t * b

/-- Componentwise linear blend of vectors. -/
def lerpV (a b : Vec3) (t : ℚ) : Vec3 := fun d => lerpQ (a d) (b d) t

/-- Componentwise linear blend of bounding boxes. -/
def lerpB (a b : BBox3) (t : ℚ) : BBox3 := ⟨lerpV a.lower b.lower t, lerpV a.upper b.upper t⟩

/-- Componentwise linear blend of affine transforms. -/
def lerpAff (a b : Aff3) (t : ℚ) : Aff3 :=
  ⟨⟨lerpV a.l.vx b.l.vx t, lerpV a.l.vy b.l.vy t, lerpV a.l.vz b.l.vz t⟩, lerpV a.p b.p t⟩

/-- One corner of a bounding box; a `false` index selects the lower
coordinate, matching the source's `ii == 0 ? lower : upper`. -/
def corner (b : BBox3) (i j k : Bool) : Vec3 :=
  ![if i then b.upper 0 else b.lower 0,
    if j then b.upper 1 else b.lower 1,
    if k then b.upper 2 else b.lower 2]

/-- The eight (ii,jj,kk) loop index combinations in source iteration order. -/
def cornerIdx : List (Bool × Bool × Bool) :=
  [(false,false,false),(false,false,true),(false,true,false),(false,true,true),
   (true,false,false),(true,false,true),(true,true,false),(true,true,true)]

/-- The eight pairs of matched corners of the two object-space boxes. -/
def cornerPairs (obbox0 obbox1 : BBox3) : List (Vec3 × Vec3) :=
  cornerIdx.map (fun c => (corner obbox0 c.1 c.2.1 c.2.2, corner obbox1 c.1 c.2.1 c.2.2))

/-- The denominator `2 * xfmVector(xfm0 - xfm1, p0 - p1)` of the extremum time. -/
def segDenom (xfm0 xfm1 : Aff3) (p0 p1 : Vec3) : Vec3 :=
  fun d => 2 * xfmVector (subAff xfm0 xfm1).l (p0 - p1) d

/-- The numerator part `2*xfmPoint(xfm0,p0) - xfmPoint(xfm0,p1) - xfmPoint(xfm1,p0)`. -/
def segNom (xfm0 xfm1 : Aff3) (p0 p1 : Vec3) : Vec3 :=
  fun d => 2 * xfmPoint xfm0 p0 d - xfmPoint xfm0 p1 d - xfmPoint xfm1 p0 d

/-- The true world position of a blended corner:
`lerp(xfm0,xfm1,t) * lerp(p0,p1,t)`. -/
def segPos (xfm0 xfm1 : Aff3) (p0 p1 : Vec3) (t : ℚ) : Vec3 :=
  xfmPoint (lerpAff xfm0 xfm1 t) (lerpV p0 p1 t)

/-- Candidate extremum time for the lower bound side of dimension `d`. -/
def tlOf (xfm0 xfm1 : Aff3) (bbox0 bbox1 : BBox3) (p0 p1 : Vec3) (d : Fin 3) : ℚ :=
  (segNom xfm0 xfm1 p0 p1 d + (bbox1.lower d - bbox0.lower d)) / segDenom xfm0 xfm1 p0 p1 d

/-- Candidate extremum time for the upper bound side of dimension `d`. -/
def tuOf (xfm0 xfm1 : Aff3) (bbox0 bbox1 : BBox3) (p0 p1 : Vec3) (d : Fin 3) : ℚ :=
  (segNom xfm0 xfm1 p0 p1 d + (bbox1.upper d - bbox0.upper d)) / segDenom xfm0 xfm1 p0 p1 d

/-- The per-corner body of `boundSegmentLinear`'s loop: for each dimension,
if the denominator is nonzero and the closed-form extremum time falls in
`[tmin,tmax]`, fold the signed deviation into the running delta. -/
def linStep (xfm0 xfm1 : Aff3) (bbox0 bbox1 : BBox3) (tmin tmax : ℚ)
    (delta : BBox3) (pp : Vec3 × Vec3) : BBox3 :=
  { lower := fun d =>
      if segDenom xfm0 xfm1 pp.1 pp.2 d ≠ 0 ∧
         tmin ≤ tlOf xfm0 xfm1 bbox0 bbox1 pp.1 pp.2 d ∧
         tlOf xfm0 xfm1 bbox0 bbox1 pp.1 pp.2 d ≤ tmax then
        min (delta.lower d)
          (segPos xfm0 xfm1 pp.1 pp.2 (tlOf xfm0 xfm1 bbox0 bbox1 pp.1 pp.2 d) d -
           (lerpB bbox0 bbox1 (tlOf xfm0 xfm1 bbox0 bbox1 pp.1 pp.2 d)).lower d)
      else delta.lower d
    upper := fun d =>
      if segDenom xfm0 xfm1 pp.1 pp.2 d ≠ 0 ∧
         tmin ≤ tuOf xfm0 xfm1 bbox0 bbox1 pp.1 pp.2 d ∧
         tuOf xfm0 xfm1 bbox0 bbox1 pp.1 pp.2 d ≤ tmax then
        max (delta.upper d)
          (segPos xfm0 xfm1 pp.1 pp.2 (tuOf xfm0 xfm1 bbox0 bbox1 pp.1 pp.2 d) d -
           (lerpB bbox0 bbox1 (tuOf xfm0 xfm1 bbox0 bbox1 pp.1 pp.2 d)).upper d)
      else delta.upper d }

/-- The zero delta box the corrections start from. -/
def zeroBox : BBox3 := ⟨fun _ => 0, fun _ => 0⟩

/-- Closed-form conservative correction for linearly interpolated transforms
(`boundSegmentLinear` in `scene_instance.cpp`). -/
def boundSegmentLinear (xfm0 xfm1 : Aff3) (obbox0 obbox1 bbox0 bbox1 : BBox3)
    (tmin tmax : ℚ) : BBox3 :=
  (cornerPairs obbox0 obbox1).foldl (linStep xfm0 xfm1 bbox0 bbox1 tmin tmax) zeroBox

/-- Quadratic coefficient of the blended corner motion in dimension `d`:
`(A1-A0)(p1-p0)`. -/
def segQa (xfm0 xfm1 : Aff3) (p0 p1 : Vec3) : Vec3 :=
  fun d => xfmVector (subAff xfm1 xfm0).l (p1 - p0) d

/-- Linear coefficient of the blended corner motion in dimension `d`. -/
def segQb (xfm0 xfm1 : Aff3) (p0 p1 : Vec3) : Vec3 :=
  fun d => xfmVector (subAff xfm1 xfm0).l p0 d + xfmVector xfm0.l (p1 - p0) d +
    (xfm1.p d - xfm0.p d)

/-- Constant coefficient of the blended corner motion in dimension `d`. -/
def segQc (xfm0 xfm1 : Aff3) (p0 p1 : Vec3) : Vec3 :=
  fun d => xfmPoint xfm0 p0 d

/-- A unit box used for concrete instantiations. -/
def wBox : BBox3 := ⟨![0,0,0], ![1,1,1]⟩

/-- Keyframe transforms and boxes of the concrete refutation of claim C1 as
stated: identity at the first keyframe, uniform scaling by 3 at the second,
with degenerate object boxes. -/
def cexXfm1 : Aff3 := ⟨⟨![3,0,0], ![0,3,0], ![0,0,3]⟩, ![0,0,0]⟩

def cexObb0 : BBox3 := ⟨![0,0,0], ![0,0,0]⟩

def cexObb1 : BBox3 := ⟨![1,1,1], ![1,1,1]⟩

def cexBb0 : BBox3 := ⟨![0,0,0], ![0,0,0]⟩

def cexBb1 : BBox3 := ⟨![3,3,3], ![3,3,3]⟩

/-- The packed payload of a quaternion-decomposition matrix
(an `AffineSpace3fa` whose `w` components carry the quaternion), treated
opaquely by this development. -/
abbrev QDecomp : Type := Fin 4 → Fin 4 → ℚ

/-- A stored quaternion-decomposition slot.  The source marks an unset slot
by writing `+inf` into the fixed field `l.vx.x`; the embedding models that
sentinel as `none` and a set slot as `some`. -/
abbrev QEntry : Type := Option QDecomp

/-- The sentinel marking an unset / invalidated quaternion slot. -/
def qSentinel : QEntry := none

/-- Modelled from the spec: `MotionDerivativeCoefficients` (the class lives
in `motion_derivative.h`, which is not part of the sources) is "derived
purely from the pair's quaternion decompositions"; it is modelled as that
pair itself. -/
abbrev MDC : Type := QEntry × QEntry

/-- The shape of the external root finder
`MotionDerivative(coeffs,dim,p0,p1).findRoots(interval, target, roots, 8)`:
given the coefficients, a dimension, the two blended corner positions, the
interval and the target offset, it returns some list of candidate roots.
The source caps the number of used roots at 8. -/
abbrev RootFinder : Type := MDC → Fin 3 → Vec3 → Vec3 → ℚ × ℚ → ℚ → List ℚ

/-- The shape of the external spherical interpolation
`slerp(xfm0, xfm1, t)` of two quaternion-decomposition matrices. -/
abbrev SlerpFn : Type := QEntry → QEntry → ℚ → Aff3

/-- The per-corner body of `boundSegmentNonlinear`'s loop: for each
dimension, fold the deviation at every root returned by the root finder
into the running delta (lower-bound targets for the lower side, upper-bound
targets for the upper side). -/
def nlStep (findRoots : RootFinder) (slerpA : SlerpFn) (mdc : MDC) (xfm0 xfm1 : QEntry)
    (bbox0 bbox1 : BBox3) (tmin tmax : ℚ) (delta : BBox3) (pp : Vec3 × Vec3) : BBox3 :=
  { lower := fun d =>
      ((findRoots mdc d pp.1 pp.2 (tmin, tmax) (bbox0.lower d - bbox1.lower d)).take 8).foldl
        (fun acc t => min acc
          (xfmPoint (slerpA xfm0 xfm1 t) (lerpV pp.1 pp.2 t) d - (lerpB bbox0 bbox1 t).lower d))
        (delta.lower d)
    upper := fun d =>
      ((findRoots mdc d pp.1 pp.2 (tmin, tmax) (bbox0.upper d - bbox1.upper d)).take 8).foldl
        (fun acc t => max acc
          (xfmPoint (slerpA xfm0 xfm1 t) (lerpV pp.1 pp.2 t) d - (lerpB bbox0 bbox1 t).upper d))
        (delta.upper d) }

/-- Root-finding based conservative correction for quaternion-interpolated
transforms (`boundSegmentNonlinear` in `scene_instance.cpp`), parameterized
over the external root finder and slerp. -/
def boundSegmentNonlinear (findRoots : RootFinder) (slerpA : SlerpFn) (mdc : MDC)
    (xfm0 xfm1 : QEntry) (obbox0 obbox1 bbox0 bbox1 : BBox3) (tmin tmax : ℚ) : BBox3 :=
  (cornerPairs obbox0 obbox1).foldl
    (nlStep findRoots slerpA mdc xfm0 xfm1 bbox0 bbox1 tmin tmax) zeroBox

/-- The two transform-interpolation modes (`TransformationInterpolation`). -/
inductive Interp where
  | LINEAR
  | NONLINEAR
deriving DecidableEq

/-- Error kinds of the host error channel (`RTCError` codes used here). -/
inductive RTCErrorKind where
  | unknownError
  | invalidArgument
  | invalidOperation
  | outOfMemory
deriving DecidableEq

/-- An error surfaced through `throw_RTCError`: a kind plus a message. -/
abbrev RTCError : Type := RTCErrorKind × String

/-- The mutable state of an `Instance` relevant to this development.
`updated` and `baseCommitted` are ghost flags recording whether the
external base-class hooks `Geometry::update()` (dirty marking, modelled
from the spec: "marks containing geometry dirty") and `Geometry::commit()`
have been invoked. -/
structure InstanceState where
  numTimeSteps : ℕ
  local2world : List Aff3
  interpolation : Interp
  quaternionDecomposition : Option (List QEntry)
  motionDerivCoeffs : Option (List MDC)
  world2local0 : Aff3
  updated : Bool
  baseCommitted : Bool

/-- Well-formedness of the store: the sequences have `numTimeSteps` entries. -/
def wfB (s : InstanceState) : Bool :=
  (s.local2world.length == s.numTimeSteps) &&
    (s.quaternionDecomposition.all (fun l => l.length == s.numTimeSteps))

/-- The message of the out-of-range time step error. -/
def invalidTimestepMsg : String := "invalid timestep"

/-- `Instance::setTransform`: rejects an out-of-range time step with an
invalid-operation error (carrying the unmodified state), otherwise stores
the matrix and invalidates the quaternion slot of that time step. -/
def setTransform (s : InstanceState) (xfm : Aff3) (timeStep : ℕ) :
    Except (RTCError × InstanceState) InstanceState :=
  if s.numTimeSteps ≤ timeStep then
    .error ((.invalidOperation, invalidTimestepMsg), s)
  else
    .ok { s with
      quaternionDecomposition := s.quaternionDecomposition.map (fun l => l.set timeStep qSentinel),
      local2world := s.local2world.set timeStep xfm }

/-- `Instance::setQuaternionDecomposition`: rejects an out-of-range time
step, otherwise stores the affine matrix derived from the decomposition via
`setTransform` (the derivation `D*R*M` uses external quaternion math and is
abstracted as `deriveAffine`), lazily allocates the quaternion sequence
with every slot sentinel, and stores the raw decomposition at `timeStep`. -/
def setQuaternionDecomposition (deriveAffine : QDecomp → Aff3) (s : InstanceState)
    (qd : QDecomp) (timeStep : ℕ) : Except (RTCError × InstanceState) InstanceState :=
  if s.numTimeSteps ≤ timeStep then
    .error ((.invalidOperation, invalidTimestepMsg), s)
  else
    match setTransform s (deriveAffine qd) timeStep with
    | .error e => .error e
    | .ok s1 =>
      let s2 := if s1.quaternionDecomposition = none
        then { s1 with
          quaternionDecomposition := some (List.replicate s1.numTimeSteps qSentinel) }
        else s1
      .ok { s2 with
        quaternionDecomposition := s2.quaternionDecomposition.map (fun l => l.set timeStep (some qd)) }

/-- `Instance::setNumTimeSteps`: no-op when the count is unchanged;
otherwise reallocates both sequences, copying the first `min(N,M)` entries,
filling new affine entries with the identity and new quaternion entries
with the sentinel. -/
def setNumTimeSteps (s : InstanceState) (numTimeSteps_in : ℕ) : InstanceState :=
  if numTimeSteps_in = s.numTimeSteps then s
  else
    { s with
      numTimeSteps := numTimeSteps_in,
      local2world := List.ofFn (fun i : Fin numTimeSteps_in =>
        if (i : ℕ) < s.numTimeSteps then s.local2world.getD i affId else affId),
      quaternionDecomposition := s.quaternionDecomposition.map (fun l =>
        List.ofFn (fun i : Fin numTimeSteps_in =>
          if (i : ℕ) < s.numTimeSteps then l.getD i qSentinel else qSentinel)) }

/-- The `interpolate_nonlinear` flag computed by
`Instance::updateInterpolationMode`: the quaternion sequence exists and no
slot is the sentinel. -/
def interpNonlinearFlag (s : InstanceState) : Bool :=
  match s.quaternionDecomposition with
  | none => false
  | some l => (List.range s.numTimeSteps).all (fun i => (l.getD i qSentinel).isSome)

/-- The `interpolate_linear` flag computed by
`Instance::updateInterpolationMode`: the quaternion sequence is absent or
every slot is the sentinel. -/
def interpLinearFlag (s : InstanceState) : Bool :=
  match s.quaternionDecomposition with
  | none => true
  | some l => (List.range s.numTimeSteps).all (fun i => (l.getD i qSentinel).isNone)

/-- The mixed-representation error message (the source concatenates the
string literals without separating spaces). -/
def mixedMsg : String :=
  "all transformation matrizes have to be set as either affine" ++
  "transformation matrizes (rtcSetGeometryTransformation) or quaternion" ++
  "decompositions (rtcSetGeometryTransformationQuaternion). Mixing both is" ++
  "not allowed."

/-- `Instance::updateInterpolationMode`: classifies the interpolation mode
from the stored quaternion slots; fails with an invalid-operation error on
a mixed configuration and with the (also invalid-operation) defensive error
when both flags hold; otherwise records the classified mode. -/
def updateInterpolationMode (s : InstanceState) :
    Except (RTCError × InstanceState) InstanceState :=
  if interpLinearFlag s = false ∧ interpNonlinearFlag s = false then
    .error ((.invalidOperation, mixedMsg), s)
  else if interpLinearFlag s = true ∧ interpNonlinearFlag s = true then
    .error ((.invalidOperation, "this should not happen."), s)
  else
    .ok { s with
      interpolation := if interpLinearFlag s then .LINEAR else .NONLINEAR }

/-- `Instance::commit`: classify the mode, then cache the inverse of
keyframe 0's transform (the matrix inverse `rcp` is external math and is
abstracted as `rcpA`), then delegate to `Geometry::commit` (ghost flag). -/
def commit (rcpA : Aff3 → Aff3) (s : InstanceState) :
    Except (RTCError × InstanceState) InstanceState :=
  match updateInterpolationMode s with
  | .error e => .error e
  | .ok s1 =>
    .ok { s1 with
      world2local0 := rcpA (s1.local2world.getD 0 affId),
      baseCommitted := true }

/-- The motion-derivative coefficients built for the `N-1` adjacent
keyframe pairs in `Instance::preCommit`. -/
def buildMDCs (s : InstanceState) : List MDC :=
  (List.range (s.numTimeSteps - 1)).map (fun i =>
    ((s.quaternionDecomposition.getD []).getD i qSentinel,
     (s.quaternionDecomposition.getD []).getD (i + 1) qSentinel))

/-- `Instance::preCommit`: rebuilds the motion-derivative coefficients when
the cached interpolation field says NONLINEAR. -/
def preCommit (s : InstanceState) : InstanceState :=
  if s.interpolation = .NONLINEAR then { s with motionDerivCoeffs := some (buildMDCs s) }
  else s

/-- `Instance::postCommit`: frees the transient coefficients. -/
def postCommit (s : InstanceState) : InstanceState :=
  { s with motionDerivCoeffs := none }

/-- A minimal one-time-step state used as concrete input. -/
def oneStepState : InstanceState :=
  { numTimeSteps := 1, local2world := [affId], interpolation := .LINEAR,
    quaternionDecomposition := none, motionDerivCoeffs := none,
    world2local0 := affId, updated := false, baseCommitted := false }

/-- A two-time-step state with one valid and one sentinel quaternion slot. -/
def mixedState : InstanceState :=
  { numTimeSteps := 2, local2world := [affId, affId], interpolation := .LINEAR,
    quaternionDecomposition := some [some (fun _ _ => 0), qSentinel],
    motionDerivCoeffs := none, world2local0 := affId, updated := false,
    baseCommitted := false }

/-- A state on which both classification predicates hold (quaternion
sequence present but no time steps). -/
def bothFlagsState : InstanceState :=
  { numTimeSteps := 0, local2world := [], interpolation := .LINEAR,
    quaternionDecomposition := some [], motionDerivCoeffs := none,
    world2local0 := affId, updated := false, baseCommitted := false }

/-- A state whose stored data classifies as nonlinear while the cached mode
field still says LINEAR. -/
def staleModeState : InstanceState :=
  { numTimeSteps := 2, local2world := [affId, affId], interpolation := .LINEAR,
    quaternionDecomposition := some [some (fun _ _ => 0), some (fun _ _ => 0)],
    motionDerivCoeffs := none, world2local0 := affId, updated := false,
    baseCommitted := false }

/-- A state used to exhibit the absence of dirty marking in `setTransform`. -/
def cleanState : InstanceState :=
  { numTimeSteps := 1, local2world := [affId], interpolation := .LINEAR,
    quaternionDecomposition := none, motionDerivCoeffs := none,
    world2local0 := affId, updated := false, baseCommitted := false }

/-- A linearly interpolated bounding box pair (`LBBox3fa`). -/
@[ext]
structure LBBox3 where
  bounds0 : BBox3
  bounds1 : BBox3

/-- Truncation of a rational toward zero, the semantics of C's
float-to-int cast. -/
def truncQ (q : ℚ) : ℤ := if 0 ≤ q then ⌊q⌋ else ⌈q⌉

/-- The inclusive integer range `[a, b]` as a list (empty when `b < a`),
the iteration space of the source's `for` loops. -/
def intIcc (a b : ℤ) : List ℤ :=
  (List.range (b + 1 - a).toNat).map (fun n : ℕ => a + (n : ℤ))

/-- Pointwise addition of a delta box onto a bounding box
(`lower += d.lower; upper += d.upper`). -/
def addDelta (b d : BBox3) : BBox3 := ⟨b.lower + d.lower, b.upper + d.upper⟩

/-- `Instance::boundSegment`: dispatches on the cached interpolation mode,
feeding the stored quaternion decompositions and motion-derivative
coefficients to the nonlinear corrector or the stored affine matrices to
the linear one. -/
def boundSegment (s : InstanceState) (findRoots : RootFinder) (slerpA : SlerpFn)
    (itime : ℤ) (obbox0 obbox1 bbox0 bbox1 : BBox3) (tmin tmax : ℚ) : BBox3 :=
  if s.interpolation = .NONLINEAR then
    boundSegmentNonlinear findRoots slerpA
      ((s.motionDerivCoeffs.getD []).getD itime.toNat (qSentinel, qSentinel))
      ((s.quaternionDecomposition.getD []).getD itime.toNat qSentinel)
      ((s.quaternionDecomposition.getD []).getD (itime.toNat + 1) qSentinel)
      obbox0 obbox1 bbox0 bbox1 tmin tmax
  else
    boundSegmentLinear (s.local2world.getD itime.toNat affId)
      (s.local2world.getD (itime.toNat + 1) affId) obbox0 obbox1 bbox0 bbox1 tmin tmax

/-- The inputs of `Instance::nonlinearBounds`: the global query time range,
the geometry's local time range, and the local segment count. -/
structure NBInput where
  timeRange : ℚ × ℚ
  geomTimeRange : ℚ × ℚ
  geomTimeSegments : ℚ

/-- Normalized query range lower endpoint
`(time_range_in.lower - geom_time_range.lower) / geom_time_range.size()`. -/
def nbTrLower (q : NBInput) : ℚ :=
  (q.timeRange.1 - q.geomTimeRange.1) / (q.geomTimeRange.2 - q.geomTimeRange.1)

/-- Normalized query range upper endpoint. -/
def nbTrUpper (q : NBInput) : ℚ :=
  (q.timeRange.2 - q.geomTimeRange.1) / (q.geomTimeRange.2 - q.geomTimeRange.1)

/-- `time_range.size()`, the divisor of the per-segment fractions. -/
def nbTrSize (q : NBInput) : ℚ := nbTrUpper q - nbTrLower q

/-- `lower = time_range.lower * geom_time_segments`. -/
def nbLower (q : NBInput) : ℚ := nbTrLower q * q.geomTimeSegments

/-- `upper = time_range.upper * geom_time_segments`. -/
def nbUpper (q : NBInput) : ℚ := nbTrUpper q * q.geomTimeSegments

/-- `ilowerf = floor(lower)`. -/
def nbIlowerf (q : NBInput) : ℤ := ⌊nbLower q⌋

/-- `iupperf = ceil(upper)`. -/
def nbIupperf (q : NBInput) : ℤ := ⌈nbUpper q⌉

/-- `ilowerfc = max(0, ilowerf)`. -/
def nbIlowerfc (q : NBInput) : ℚ := max 0 ((nbIlowerf q : ℤ) : ℚ)

/-- `iupperfc = min(iupperf, geom_time_segments)`. -/
def nbIupperfc (q : NBInput) : ℚ := min ((nbIupperf q : ℤ) : ℚ) q.geomTimeSegments

/-- `ilowerc = (int)ilowerfc`. -/
def nbIlowerc (q : NBInput) : ℤ := truncQ (nbIlowerfc q)

/-- `iupperc = (int)iupperfc`; `assert(iupperc - ilowerc > 0)` guards the
computation. -/
def nbIupperc (q : NBInput) : ℤ := truncQ (nbIupperfc q)

/-- `ilower_iter = max(-1, (int)ilowerf)`. -/
def nbIlowerIter (q : NBInput) : ℤ := max (-1) (nbIlowerf q)

/-- `iupper_iter = min((int)iupperf, (int)geom_time_segments + 1)`. -/
def nbIupperIter (q : NBInput) : ℤ :=
  min (nbIupperf q) (truncQ q.geomTimeSegments + 1)

/-- The single-segment fast path of `Instance::nonlinearBounds`.  The
two- and three-argument `bounds` helpers and `getObjectBounds` live in the
headers, outside the sources, and are abstracted as `boundsFn` and
`objB`. -/
def nbSingle (s : InstanceState) (findRoots : RootFinder) (slerpA : SlerpFn)
    (boundsFn : ℤ → ℤ → ℚ → BBox3) (objB : ℤ → BBox3) (q : NBInput) : LBBox3 :=
  let f0 := ((nbIlowerc q : ℤ) / (q.geomTimeSegments) - nbTrLower q) / nbTrSize q
  let f1 := ((nbIupperc q : ℤ) / (q.geomTimeSegments) - nbTrLower q) / nbTrSize q
  let bounds0 := boundsFn (nbIlowerc q) (nbIupperc q) (max 0 (nbLower q - nbIlowerfc q))
  let bounds1 := boundsFn (nbIupperc q) (nbIlowerc q) (max 0 (nbIupperfc q - nbUpper q))
  let d := boundSegment s findRoots slerpA (nbIlowerc q)
    (objB (nbIlowerc q)) (objB (nbIupperc q))
    (lerpB bounds0 bounds1 f0) (lerpB bounds0 bounds1 f1)
    (max 0 (nbLower q - nbIlowerfc q)) (1 - max 0 (nbIupperfc q - nbUpper q))
  ⟨addDelta bounds0 d, addDelta bounds1 d⟩

/-- The multi-segment path of `Instance::nonlinearBounds`: seed the
endpoint boxes, widen them over every interior grid breakpoint, then
accumulate the worst-case per-segment correction delta and apply it to
both endpoints. -/
def nbMulti (s : InstanceState) (findRoots : RootFinder) (slerpA : SlerpFn)
    (boundsFn : ℤ → ℤ → ℚ → BBox3) (bounds2Fn : ℤ → ℤ → BBox3) (objB : ℤ → BBox3)
    (q : NBInput) : LBBox3 :=
  let b0init := boundsFn (nbIlowerc q) (nbIlowerc q + 1) (nbLower q - nbIlowerfc q)
  let b1init := boundsFn (nbIupperc q) (nbIupperc q - 1) (nbIupperfc q - nbUpper q)
  let bb := (intIcc (nbIlowerIter q + 1) (nbIupperIter q - 1)).foldl
    (fun (bb : BBox3 × BBox3) i =>
      let f := ((i : ℤ) / (q.geomTimeSegments) - nbTrLower q) / nbTrSize q
      let bt := lerpB bb.1 bb.2 f
      let bi := bounds2Fn 0 i
      let dlower : Vec3 := fun dd => min (bi.lower dd - bt.lower dd) 0
      let dupper : Vec3 := fun dd => max (bi.upper dd - bt.upper dd) 0
      (⟨bb.1.lower + dlower, bb.1.upper + dupper⟩, ⟨bb.2.lower + dlower, bb.2.upper + dupper⟩))
    (b0init, b1init)
  let lo := max 1 (nbIlowerIter q + 1)
  let hi := min ((s.numTimeSteps : ℤ) - 1) (nbIupperIter q)
  let delta := (intIcc lo hi).foldl
    (fun (acc : BBox3) i =>
      let f0 := (((i - 1 : ℤ) : ℤ) / (q.geomTimeSegments) - nbTrLower q) / nbTrSize q
      let f1 := ((i : ℤ) / (q.geomTimeSegments) - nbTrLower q) / nbTrSize q
      let tmn := if i = lo then max 0 (nbLower q - nbIlowerfc q) else 0
      let tmx := if i = max 1 hi then 1 - max 0 (nbIupperfc q - nbUpper q) else 1
      let d := boundSegment s findRoots slerpA (i - 1) (objB (i - 1)) (objB i)
        (lerpB bb.1 bb.2 f0) (lerpB bb.1 bb.2 f1) tmn tmx
      ⟨fun dd => min (acc.lower dd) (d.lower dd), fun dd => max (acc.upper dd) (d.upper dd)⟩)
    zeroBox
  ⟨addDelta bb.1 delta, addDelta bb.2 delta⟩

/-- `Instance::nonlinearBounds`: takes the single-segment fast path exactly
when the enlarged iteration range spans one segment. -/
def nonlinearBounds (s : InstanceState) (findRoots : RootFinder) (slerpA : SlerpFn)
    (boundsFn : ℤ → ℤ → ℚ → BBox3) (bounds2Fn : ℤ → ℤ → BBox3) (objB : ℤ → BBox3)
    (q : NBInput) : LBBox3 :=
  if nbIupperIter q - nbIlowerIter q = 1 then nbSingle s findRoots slerpA boundsFn objB q
  else nbMulti s findRoots slerpA boundsFn bounds2Fn objB q

def c4q : NBInput := ⟨(0, 1), (0, 1), 1⟩

def c4findRoots : RootFinder := fun _ _ _ _ _ _ => []

def c4slerp : SlerpFn := fun _ _ _ => affId

theorem segPos_quadratic (xfm0 xfm1 : Aff3) (p0 p1 : Vec3) (t : ℚ) (d : Fin 3) :
    segPos xfm0 xfm1 p0 p1 t d =
      segQa xfm0 xfm1 p0 p1 d * t ^ 2 + segQb xfm0 xfm1 p0 p1 d * t +
        segQc xfm0 xfm1 p0 p1 d := by
  simp only [segPos, segQa, segQb, segQc, xfmPoint, xfmVector, lerpAff, lerpV, lerpQ,
    subAff, subLin, Pi.sub_apply]
  ring

theorem segDenom_eq (xfm0 xfm1 : Aff3) (p0 p1 : Vec3) (d : Fin 3) :
    segDenom xfm0 xfm1 p0 p1 d = 2 * segQa xfm0 xfm1 p0 p1 d := by
  simp only [segDenom, segQa, xfmVector, subAff, subLin, Pi.sub_apply]
  ring

theorem segNom_eq (xfm0 xfm1 : Aff3) (p0 p1 : Vec3) (d : Fin 3) :
    segNom xfm0 xfm1 p0 p1 d = -segQb xfm0 xfm1 p0 p1 d := by
  simp only [segNom, segQb, xfmPoint, xfmVector, subAff, subLin, Pi.sub_apply]
  ring

/-- Lower-side vertex lemma: a quadratic `a x^2 - 2 a s x + c` (vertex at
`s`) that is nonnegative at both endpoints of `[u,v]` and `≥ D` at the
vertex whenever the vertex lies in `[u,v]` is `≥ D` (with `D ≤ 0`) on all
of `[u,v]`. -/
theorem quad_vertex_lb (a s c u v t D : ℚ) (hut : u ≤ t) (htv : t ≤ v)
    (hD : D ≤ 0) (hqu : 0 ≤ a * u ^ 2 - 2 * a * s * u + c)
    (hqv : 0 ≤ a * v ^ 2 - 2 * a * s * v + c)
    (hcrit : u ≤ s → s ≤ v → D ≤ a * s ^ 2 - 2 * a * s * s + c) :
    D ≤ a * t ^ 2 - 2 * a * s * t + c := by
  rcases lt_trichotomy a 0 with haneg | ha0 | hapos
  · rcases le_total t s with hts | hst
    · nlinarith [mul_nonneg (mul_nonneg (neg_nonneg.2 haneg.le) (sub_nonneg.2 hut))
        (by linarith : (0:ℚ) ≤ 2 * s - t - u)]
    · nlinarith [mul_nonneg (mul_nonneg (neg_nonneg.2 haneg.le) (sub_nonneg.2 htv))
        (by linarith : (0:ℚ) ≤ t + v - 2 * s)]
  · subst ha0
    nlinarith
  · rcases le_or_lt u s with hus | hsu
    · rcases le_or_lt s v with hsv | hvs
      · have hc := hcrit hus hsv
        nlinarith [sq_nonneg (t - s)]
      · nlinarith [mul_nonneg (mul_nonneg hapos.le (sub_nonneg.2 htv))
          (by linarith : (0:ℚ) ≤ 2 * s - t - v)]
    · nlinarith [mul_nonneg (mul_nonneg hapos.le (sub_nonneg.2 hut))
        (by linarith : (0:ℚ) ≤ t + u - 2 * s)]

/-- Upper-side vertex lemma, the mirror image of `quad_vertex_lb`. -/
theorem quad_vertex_ub (a s c u v t D : ℚ) (hut : u ≤ t) (htv : t ≤ v)
    (hD : 0 ≤ D) (hqu : a * u ^ 2 - 2 * a * s * u + c ≤ 0)
    (hqv : a * v ^ 2 - 2 * a * s * v + c ≤ 0)
    (hcrit : u ≤ s → s ≤ v → a * s ^ 2 - 2 * a * s * s + c ≤ D) :
    a * t ^ 2 - 2 * a * s * t + c ≤ D := by
  have h := quad_vertex_lb (-a) s (-c) u v t (-D) hut htv (by linarith)
    (by nlinarith) (by nlinarith)
    (fun h1 h2 => by have := hcrit h1 h2; nlinarith)
  nlinarith

theorem foldl_linStep_lower_le_init (xfm0 xfm1 : Aff3) (bbox0 bbox1 : BBox3)
    (tmin tmax : ℚ) (L : List (Vec3 × Vec3)) (init : BBox3) (d : Fin 3) :
    (L.foldl (linStep xfm0 xfm1 bbox0 bbox1 tmin tmax) init).lower d ≤ init.lower d := by
  induction L generalizing init with
  | nil => simp
  | cons hd tl ih =>
    refine le_trans (ih _) ?_
    simp only [linStep]
    split
    · exact min_le_left _ _
    · exact le_refl _

theorem foldl_linStep_upper_ge_init (xfm0 xfm1 : Aff3) (bbox0 bbox1 : BBox3)
    (tmin tmax : ℚ) (L : List (Vec3 × Vec3)) (init : BBox3) (d : Fin 3) :
    init.upper d ≤ (L.foldl (linStep xfm0 xfm1 bbox0 bbox1 tmin tmax) init).upper d := by
  induction L generalizing init with
  | nil => simp
  | cons hd tl ih =>
    refine le_trans ?_ (ih _)
    simp only [linStep]
    split
    · exact le_max_left _ _
    · exact le_refl _

theorem foldl_linStep_lower_le_cand (xfm0 xfm1 : Aff3) (bbox0 bbox1 : BBox3)
    (tmin tmax : ℚ) (L : List (Vec3 × Vec3)) (init : BBox3) (pp : Vec3 × Vec3)
    (hpp : pp ∈ L) (d : Fin 3)
    (hcond : segDenom xfm0 xfm1 pp.1 pp.2 d ≠ 0 ∧
      tmin ≤ tlOf xfm0 xfm1 bbox0 bbox1 pp.1 pp.2 d ∧
      tlOf xfm0 xfm1 bbox0 bbox1 pp.1 pp.2 d ≤ tmax) :
    (L.foldl (linStep xfm0 xfm1 bbox0 bbox1 tmin tmax) init).lower d ≤
      segPos xfm0 xfm1 pp.1 pp.2 (tlOf xfm0 xfm1 bbox0 bbox1 pp.1 pp.2 d) d -
        (lerpB bbox0 bbox1 (tlOf xfm0 xfm1 bbox0 bbox1 pp.1 pp.2 d)).lower d := by
  induction L generalizing init with
  | nil => cases hpp
  | cons hd tl ih =>
    rcases List.mem_cons.1 hpp with h | h
    · subst h
      refine le_trans (foldl_linStep_lower_le_init xfm0 xfm1 bbox0 bbox1 tmin tmax tl _ d) ?_
      simp only [linStep, List.foldl_cons]
      rw [if_pos hcond]
      exact min_le_right _ _
    · exact ih _ h

theorem foldl_linStep_upper_ge_cand (xfm0 xfm1 : Aff3) (bbox0 bbox1 : BBox3)
    (tmin tmax : ℚ) (L : List (Vec3 × Vec3)) (init : BBox3) (pp : Vec3 × Vec3)
    (hpp : pp ∈ L) (d : Fin 3)
    (hcond : segDenom xfm0 xfm1 pp.1 pp.2 d ≠ 0 ∧
      tmin ≤ tuOf xfm0 xfm1 bbox0 bbox1 pp.1 pp.2 d ∧
      tuOf xfm0 xfm1 bbox0 bbox1 pp.1 pp.2 d ≤ tmax) :
    segPos xfm0 xfm1 pp.1 pp.2 (tuOf xfm0 xfm1 bbox0 bbox1 pp.1 pp.2 d) d -
        (lerpB bbox0 bbox1 (tuOf xfm0 xfm1 bbox0 bbox1 pp.1 pp.2 d)).upper d ≤
      (L.foldl (linStep xfm0 xfm1 bbox0 bbox1 tmin tmax) init).upper d := by
  induction L generalizing init with
  | nil => cases hpp
  | cons hd tl ih =>
    rcases List.mem_cons.1 hpp with h | h
    · subst h
      refine le_trans ?_ (foldl_linStep_upper_ge_init xfm0 xfm1 bbox0 bbox1 tmin tmax tl _ d)
      simp only [linStep, List.foldl_cons]
      rw [if_pos hcond]
      exact le_max_right _ _
    · exact ih _ h

theorem boundSegmentLinear_lower_nonpos (xfm0 xfm1 : Aff3)
    (obbox0 obbox1 bbox0 bbox1 : BBox3) (tmin tmax : ℚ) (d : Fin 3) :
    (boundSegmentLinear xfm0 xfm1 obbox0 obbox1 bbox0 bbox1 tmin tmax).lower d ≤ 0 :=
  foldl_linStep_lower_le_init xfm0 xfm1 bbox0 bbox1 tmin tmax _ zeroBox d

theorem boundSegmentLinear_upper_nonneg (xfm0 xfm1 : Aff3)
    (obbox0 obbox1 bbox0 bbox1 : BBox3) (tmin tmax : ℚ) (d : Fin 3) :
    0 ≤ (boundSegmentLinear xfm0 xfm1 obbox0 obbox1 bbox0 bbox1 tmin tmax).upper d :=
  foldl_linStep_upper_ge_init xfm0 xfm1 bbox0 bbox1 tmin tmax _ zeroBox d

/-- General lower bound lemma for a quadratic `a x^2 + b x + c`, with the
critical-point hypothesis guarded by `a ≠ 0`. -/
theorem quad_lb_general (a b c u v t D : ℚ) (hut : u ≤ t) (htv : t ≤ v)
    (hD : D ≤ 0) (hqu : 0 ≤ a * u ^ 2 + b * u + c) (hqv : 0 ≤ a * v ^ 2 + b * v + c)
    (hcrit : a ≠ 0 → u ≤ -b / (2 * a) → -b / (2 * a) ≤ v →
      D ≤ a * (-b / (2 * a)) ^ 2 + b * (-b / (2 * a)) + c) :
    D ≤ a * t ^ 2 + b * t + c := by
  rcases eq_or_ne a 0 with ha | ha
  · subst ha
    rcases le_total 0 b with hb | hb
    · nlinarith [mul_nonneg hb (sub_nonneg.2 hut)]
    · nlinarith [mul_nonneg (neg_nonneg.2 hb) (sub_nonneg.2 htv)]
  · have hb : b = -(2 * a * (-b / (2 * a))) := by field_simp
    set s : ℚ := -b / (2 * a) with hs
    have h1 : ∀ x : ℚ, a * x ^ 2 + b * x + c = a * x ^ 2 - 2 * a * s * x + c := by
      intro x; rw [hb]; ring
    rw [h1]
    refine quad_vertex_lb a s c u v t D hut htv hD ?_ ?_ ?_
    · rw [← h1]; exact hqu
    · rw [← h1]; exact hqv
    · intro h1' h2'
      have hc := hcrit ha h1' h2'
      rw [h1] at hc
      exact hc

/-- General upper bound lemma for a quadratic `a x^2 + b x + c`. -/
theorem quad_ub_general (a b c u v t D : ℚ) (hut : u ≤ t) (htv : t ≤ v)
    (hD : 0 ≤ D) (hqu : a * u ^ 2 + b * u + c ≤ 0) (hqv : a * v ^ 2 + b * v + c ≤ 0)
    (hcrit : a ≠ 0 → u ≤ -b / (2 * a) → -b / (2 * a) ≤ v →
      a * (-b / (2 * a)) ^ 2 + b * (-b / (2 * a)) + c ≤ D) :
    a * t ^ 2 + b * t + c ≤ D := by
  have hcp : -(-b) / (2 * -a) = -b / (2 * a) := by
    rw [show (2:ℚ) * -a = -(2 * a) by ring, div_neg, neg_neg, ← neg_div]
  have h := quad_lb_general (-a) (-b) (-c) u v t (-D) hut htv (by linarith)
    (by nlinarith) (by nlinarith) ?_
  · nlinarith [h]
  · intro ha hu hv
    rw [hcp] at hu hv ⊢
    have hc := hcrit (neg_ne_zero.mp ha) hu hv
    nlinarith [hc]

/-- Per-corner lower-side conservativeness, stated over the quadratic
coefficients of one corner's motion in one dimension. -/
theorem linear_corner_lb (A B C b0l b1l u v t D : ℚ) (hut : u ≤ t) (htv : t ≤ v)
    (hD : D ≤ 0)
    (hu : (1 - u) * b0l + u * b1l ≤ A * u ^ 2 + B * u + C)
    (hv : (1 - v) * b0l + v * b1l ≤ A * v ^ 2 + B * v + C)
    (hcrit : ∀ s : ℚ, 2 * A ≠ 0 → s = (-B + (b1l - b0l)) / (2 * A) → u ≤ s → s ≤ v →
      D ≤ (A * s ^ 2 + B * s + C) - ((1 - s) * b0l + s * b1l)) :
    (1 - t) * b0l + t * b1l + D ≤ A * t ^ 2 + B * t + C := by
  have key := quad_lb_general A (B - (b1l - b0l)) (C - b0l) u v t D hut htv hD
    (by nlinarith) (by nlinarith) ?_
  · nlinarith [key]
  · intro hA hu' hv'
    have h2A : 2 * A ≠ 0 := mul_ne_zero two_ne_zero hA
    have hseq : -(B - (b1l - b0l)) / (2 * A) = (-B + (b1l - b0l)) / (2 * A) := by
      congr 1; ring
    rw [hseq] at hu' hv' ⊢
    have hc := hcrit ((-B + (b1l - b0l)) / (2 * A)) h2A rfl hu' hv'
    nlinarith [hc]

/-- Per-corner upper-side conservativeness. -/
theorem linear_corner_ub (A B C b0u b1u u v t D : ℚ) (hut : u ≤ t) (htv : t ≤ v)
    (hD : 0 ≤ D)
    (hu : A * u ^ 2 + B * u + C ≤ (1 - u) * b0u + u * b1u)
    (hv : A * v ^ 2 + B * v + C ≤ (1 - v) * b0u + v * b1u)
    (hcrit : ∀ s : ℚ, 2 * A ≠ 0 → s = (-B + (b1u - b0u)) / (2 * A) → u ≤ s → s ≤ v →
      (A * s ^ 2 + B * s + C) - ((1 - s) * b0u + s * b1u) ≤ D) :
    A * t ^ 2 + B * t + C ≤ (1 - t) * b0u + t * b1u + D := by
  have key := quad_ub_general A (B - (b1u - b0u)) (C - b0u) u v t D hut htv hD
    (by nlinarith) (by nlinarith) ?_
  · nlinarith [key]
  · intro hA hu' hv'
    have h2A : 2 * A ≠ 0 := mul_ne_zero two_ne_zero hA
    have hseq : -(B - (b1u - b0u)) / (2 * A) = (-B + (b1u - b0u)) / (2 * A) := by
      congr 1; ring
    rw [hseq] at hu' hv' ⊢
    have hc := hcrit ((-B + (b1u - b0u)) / (2 * A)) h2A rfl hu' hv'
    nlinarith [hc]

/-- C1 (amended): provided the linearly blended bounds contain the blended
corner positions at the endpoints `tmin` and `tmax` of the restriction
interval, the delta computed by `boundSegmentLinear` makes the blended
bounds conservative at every time in `[tmin, tmax]` for every corner pair
and every dimension. -/
theorem boundSegmentLinear_conservative
    (xfm0 xfm1 : Aff3) (obbox0 obbox1 bbox0 bbox1 : BBox3) (tmin tmax t : ℚ)
    (htmin : tmin ≤ t) (htmax : t ≤ tmax)
    (hlo : ∀ pp ∈ cornerPairs obbox0 obbox1, ∀ d : Fin 3,
      (lerpB bbox0 bbox1 tmin).lower d ≤ segPos xfm0 xfm1 pp.1 pp.2 tmin d ∧
        segPos xfm0 xfm1 pp.1 pp.2 tmin d ≤ (lerpB bbox0 bbox1 tmin).upper d)
    (hhi : ∀ pp ∈ cornerPairs obbox0 obbox1, ∀ d : Fin 3,
      (lerpB bbox0 bbox1 tmax).lower d ≤ segPos xfm0 xfm1 pp.1 pp.2 tmax d ∧
        segPos xfm0 xfm1 pp.1 pp.2 tmax d ≤ (lerpB bbox0 bbox1 tmax).upper d) :
    ∀ pp ∈ cornerPairs obbox0 obbox1, ∀ d : Fin 3,
      (lerpB bbox0 bbox1 t).lower d +
          (boundSegmentLinear xfm0 xfm1 obbox0 obbox1 bbox0 bbox1 tmin tmax).lower d ≤
        segPos xfm0 xfm1 pp.1 pp.2 t d ∧
      segPos xfm0 xfm1 pp.1 pp.2 t d ≤
        (lerpB bbox0 bbox1 t).upper d +
          (boundSegmentLinear xfm0 xfm1 obbox0 obbox1 bbox0 bbox1 tmin tmax).upper d := by
  intro pp hpp d
  obtain ⟨hlo1, hlo2⟩ := hlo pp hpp d
  obtain ⟨hhi1, hhi2⟩ := hhi pp hpp d
  rw [segPos_quadratic] at hlo1 hlo2 hhi1 hhi2
  simp only [lerpB, lerpV, lerpQ] at hlo1 hlo2 hhi1 hhi2 ⊢
  constructor
  · rw [segPos_quadratic]
    refine linear_corner_lb _ _ _ _ _ tmin tmax t _ htmin htmax
      (boundSegmentLinear_lower_nonpos xfm0 xfm1 obbox0 obbox1 bbox0 bbox1 tmin tmax d)
      hlo1 hhi1 ?_
    intro s h2A hs hu' hv'
    have htl : tlOf xfm0 xfm1 bbox0 bbox1 pp.1 pp.2 d = s := by
      rw [hs, tlOf, segNom_eq, segDenom_eq]
    have hden : segDenom xfm0 xfm1 pp.1 pp.2 d ≠ 0 := by
      rw [segDenom_eq]; exact h2A
    have hfold := foldl_linStep_lower_le_cand xfm0 xfm1 bbox0 bbox1 tmin tmax
      (cornerPairs obbox0 obbox1) zeroBox pp hpp d
      ⟨hden, by rw [htl]; exact hu', by rw [htl]; exact hv'⟩
    rw [htl, segPos_quadratic] at hfold
    simp only [lerpB, lerpV, lerpQ] at hfold
    exact hfold
  · rw [segPos_quadratic]
    refine linear_corner_ub _ _ _ _ _ tmin tmax t _ htmin htmax
      (boundSegmentLinear_upper_nonneg xfm0 xfm1 obbox0 obbox1 bbox0 bbox1 tmin tmax d)
      hlo2 hhi2 ?_
    intro s h2A hs hu' hv'
    have htu : tuOf xfm0 xfm1 bbox0 bbox1 pp.1 pp.2 d = s := by
      rw [hs, tuOf, segNom_eq, segDenom_eq]
    have hden : segDenom xfm0 xfm1 pp.1 pp.2 d ≠ 0 := by
      rw [segDenom_eq]; exact h2A
    have hfold := foldl_linStep_upper_ge_cand xfm0 xfm1 bbox0 bbox1 tmin tmax
      (cornerPairs obbox0 obbox1) zeroBox pp hpp d
      ⟨hden, by rw [htu]; exact hu', by rw [htu]; exact hv'⟩
    rw [htu, segPos_quadratic] at hfold
    simp only [lerpB, lerpV, lerpQ] at hfold
    exact hfold

theorem boundSegmentLinear_conservative_witness :
    ((0:ℚ) ≤ 1/2 ∧ (1/2:ℚ) ≤ 1) ∧
    (∀ pp ∈ cornerPairs wBox wBox, ∀ d : Fin 3,
      (lerpB wBox wBox 0).lower d ≤ segPos affId affId pp.1 pp.2 0 d ∧
        segPos affId affId pp.1 pp.2 0 d ≤ (lerpB wBox wBox 0).upper d) ∧
    (∀ pp ∈ cornerPairs wBox wBox, ∀ d : Fin 3,
      (lerpB wBox wBox 1).lower d ≤ segPos affId affId pp.1 pp.2 1 d ∧
        segPos affId affId pp.1 pp.2 1 d ≤ (lerpB wBox wBox 1).upper d) ∧
    (∀ pp ∈ cornerPairs wBox wBox, ∀ d : Fin 3,
      (lerpB wBox wBox (1/2)).lower d +
          (boundSegmentLinear affId affId wBox wBox wBox wBox 0 1).lower d ≤
        segPos affId affId pp.1 pp.2 (1/2) d ∧
      segPos affId affId pp.1 pp.2 (1/2) d ≤
        (lerpB wBox wBox (1/2)).upper d +
          (boundSegmentLinear affId affId wBox wBox wBox wBox 0 1).upper d) := by
  have hlo : ∀ pp ∈ cornerPairs wBox wBox, ∀ d : Fin 3,
      (lerpB wBox wBox 0).lower d ≤ segPos affId affId pp.1 pp.2 0 d ∧
        segPos affId affId pp.1 pp.2 0 d ≤ (lerpB wBox wBox 0).upper d := by
    intro pp hpp d
    simp only [cornerPairs, cornerIdx, List.map_cons, List.map_nil, List.mem_cons,
      List.not_mem_nil, or_false] at hpp
    rcases hpp with rfl | rfl | rfl | rfl | rfl | rfl | rfl | rfl <;> fin_cases d <;>
      norm_num [corner, segPos, xfmPoint, lerpAff, lerpV, lerpQ, lerpB, affId, wBox]
  have hhi : ∀ pp ∈ cornerPairs wBox wBox, ∀ d : Fin 3,
      (lerpB wBox wBox 1).lower d ≤ segPos affId affId pp.1 pp.2 1 d ∧
        segPos affId affId pp.1 pp.2 1 d ≤ (lerpB wBox wBox 1).upper d := by
    intro pp hpp d
    simp only [cornerPairs, cornerIdx, List.map_cons, List.map_nil, List.mem_cons,
      List.not_mem_nil, or_false] at hpp
    rcases hpp with rfl | rfl | rfl | rfl | rfl | rfl | rfl | rfl <;> fin_cases d <;>
      norm_num [corner, segPos, xfmPoint, lerpAff, lerpV, lerpQ, lerpB, affId, wBox]
  exact ⟨⟨by norm_num, by norm_num⟩, hlo, hhi,
    boundSegmentLinear_conservative affId affId wBox wBox wBox wBox 0 1 (1/2)
      (by norm_num) (by norm_num) hlo hhi⟩

theorem boundSegmentLinear_claimC1_counterexample :
    (∀ pp ∈ cornerPairs cexObb0 cexObb1, ∀ d : Fin 3,
      cexBb0.lower d ≤ xfmPoint affId pp.1 d ∧ xfmPoint affId pp.1 d ≤ cexBb0.upper d ∧
      cexBb1.lower d ≤ xfmPoint cexXfm1 pp.2 d ∧ xfmPoint cexXfm1 pp.2 d ≤ cexBb1.upper d) ∧
    (0:ℚ) ≤ 3/5 ∧ (3/5:ℚ) ≤ 9/10 ∧ (9/10:ℚ) ≤ 1 ∧
    ¬ ((lerpB cexBb0 cexBb1 (3/5)).lower 0 +
        (boundSegmentLinear affId cexXfm1 cexObb0 cexObb1 cexBb0 cexBb1 (3/5) (9/10)).lower 0 ≤
        segPos affId cexXfm1 ![0,0,0] ![1,1,1] (3/5) 0) := by
  refine ⟨?_, by norm_num, by norm_num, by norm_num, ?_⟩
  · intro pp hpp d
    simp only [cornerPairs, cornerIdx, List.map_cons, List.map_nil, List.mem_cons,
      List.not_mem_nil, or_false] at hpp
    rcases hpp with rfl | rfl | rfl | rfl | rfl | rfl | rfl | rfl <;> fin_cases d <;>
      norm_num [corner, xfmPoint, affId, cexXfm1, cexObb0, cexObb1, cexBb0, cexBb1]
  · have h : boundSegmentLinear affId cexXfm1 cexObb0 cexObb1 cexBb0 cexBb1 (3/5) (9/10) =
        zeroBox := by
      simp only [boundSegmentLinear, cornerPairs, cornerIdx, List.map_cons, List.map_nil,
        List.foldl_cons, List.foldl_nil]
      have hc0 : ∀ i j k : Bool, corner cexObb0 i j k = ![0,0,0] := by
        intro i j k; cases i <;> cases j <;> cases k <;> rfl
      have hc1 : ∀ i j k : Bool, corner cexObb1 i j k = ![1,1,1] := by
        intro i j k; cases i <;> cases j <;> cases k <;> rfl
      simp only [hc0, hc1]
      have hstep : linStep affId cexXfm1 cexBb0 cexBb1 (3/5) (9/10) zeroBox
          (![0,0,0], ![1,1,1]) = zeroBox := by
        have htl : ∀ d : Fin 3, tlOf affId cexXfm1 cexBb0 cexBb1 ![0,0,0] ![1,1,1] d = 1/2 := by
          intro d
          fin_cases d <;>
            norm_num [tlOf, segNom, segDenom, xfmPoint, xfmVector, subAff, subLin,
              affId, cexXfm1, cexBb0, cexBb1]
        have htu : ∀ d : Fin 3, tuOf affId cexXfm1 cexBb0 cexBb1 ![0,0,0] ![1,1,1] d = 1/2 := by
          intro d
          fin_cases d <;>
            norm_num [tuOf, segNom, segDenom, xfmPoint, xfmVector, subAff, subLin,
              affId, cexXfm1, cexBb0, cexBb1]
        unfold linStep
        refine BBox3.ext ?_ ?_ <;> funext d <;> simp [htl, htu, zeroBox] <;> norm_num
      rw [hstep, hstep, hstep, hstep, hstep, hstep, hstep, hstep]
    rw [h]
    norm_num [zeroBox, segPos, lerpB, lerpV, lerpQ, lerpAff, xfmPoint, affId, cexXfm1,
      cexBb0, cexBb1]

theorem foldl_min_le {α : Type} (f : α → ℚ) (l : List α) (acc : ℚ) :
    l.foldl (fun a t => min a (f t)) acc ≤ acc := by
  induction l generalizing acc with
  | nil => simp
  | cons hd tl ih => exact le_trans (ih _) (min_le_left _ _)

theorem le_foldl_max {α : Type} (f : α → ℚ) (l : List α) (acc : ℚ) :
    acc ≤ l.foldl (fun a t => max a (f t)) acc := by
  induction l generalizing acc with
  | nil => simp
  | cons hd tl ih => exact le_trans (le_max_left _ _) (ih _)

theorem foldl_nlStep_lower_le_init (findRoots : RootFinder) (slerpA : SlerpFn) (mdc : MDC)
    (xfm0 xfm1 : QEntry) (bbox0 bbox1 : BBox3) (tmin tmax : ℚ)
    (L : List (Vec3 × Vec3)) (init : BBox3) (d : Fin 3) :
    (L.foldl (nlStep findRoots slerpA mdc xfm0 xfm1 bbox0 bbox1 tmin tmax) init).lower d ≤
      init.lower d := by
  induction L generalizing init with
  | nil => simp
  | cons hd tl ih =>
    refine le_trans (ih _) ?_
    simp only [nlStep]
    exact foldl_min_le _ _ _

theorem foldl_nlStep_upper_ge_init (findRoots : RootFinder) (slerpA : SlerpFn) (mdc : MDC)
    (xfm0 xfm1 : QEntry) (bbox0 bbox1 : BBox3) (tmin tmax : ℚ)
    (L : List (Vec3 × Vec3)) (init : BBox3) (d : Fin 3) :
    init.upper d ≤
      (L.foldl (nlStep findRoots slerpA mdc xfm0 xfm1 bbox0 bbox1 tmin tmax) init).upper d := by
  induction L generalizing init with
  | nil => simp
  | cons hd tl ih =>
    refine le_trans ?_ (ih _)
    simp only [nlStep]
    exact le_foldl_max _ _ _

theorem boundSegmentNonlinear_lower_nonpos (findRoots : RootFinder) (slerpA : SlerpFn)
    (mdc : MDC) (xfm0 xfm1 : QEntry) (obbox0 obbox1 bbox0 bbox1 : BBox3)
    (tmin tmax : ℚ) (d : Fin 3) :
    (boundSegmentNonlinear findRoots slerpA mdc xfm0 xfm1 obbox0 obbox1 bbox0 bbox1
      tmin tmax).lower d ≤ 0 :=
  foldl_nlStep_lower_le_init findRoots slerpA mdc xfm0 xfm1 bbox0 bbox1 tmin tmax _ zeroBox d

theorem boundSegmentNonlinear_upper_nonneg (findRoots : RootFinder) (slerpA : SlerpFn)
    (mdc : MDC) (xfm0 xfm1 : QEntry) (obbox0 obbox1 bbox0 bbox1 : BBox3)
    (tmin tmax : ℚ) (d : Fin 3) :
    0 ≤ (boundSegmentNonlinear findRoots slerpA mdc xfm0 xfm1 obbox0 obbox1 bbox0 bbox1
      tmin tmax).upper d :=
  foldl_nlStep_upper_ge_init findRoots slerpA mdc xfm0 xfm1 bbox0 bbox1 tmin tmax _ zeroBox d

/-- C2: the correction deltas returned by `boundSegmentLinear` and by
`boundSegmentNonlinear` are sign-correct on every input: each lower delta
component is nonpositive and each upper delta component is nonnegative,
for any external root finder and slerp. -/
theorem boundSegment_deltas_sign_correct :
    ∀ (xfm0 xfm1 : Aff3) (findRoots : RootFinder) (slerpA : SlerpFn) (mdc : MDC)
      (q0 q1 : QEntry) (obbox0 obbox1 bbox0 bbox1 : BBox3) (tmin tmax : ℚ) (d : Fin 3),
      (boundSegmentLinear xfm0 xfm1 obbox0 obbox1 bbox0 bbox1 tmin tmax).lower d ≤ 0 ∧
      0 ≤ (boundSegmentLinear xfm0 xfm1 obbox0 obbox1 bbox0 bbox1 tmin tmax).upper d ∧
      (boundSegmentNonlinear findRoots slerpA mdc q0 q1 obbox0 obbox1 bbox0 bbox1
        tmin tmax).lower d ≤ 0 ∧
      0 ≤ (boundSegmentNonlinear findRoots slerpA mdc q0 q1 obbox0 obbox1 bbox0 bbox1
        tmin tmax).upper d := by
  intro xfm0 xfm1 findRoots slerpA mdc q0 q1 obbox0 obbox1 bbox0 bbox1 tmin tmax d
  exact ⟨boundSegmentLinear_lower_nonpos xfm0 xfm1 obbox0 obbox1 bbox0 bbox1 tmin tmax d,
    boundSegmentLinear_upper_nonneg xfm0 xfm1 obbox0 obbox1 bbox0 bbox1 tmin tmax d,
    boundSegmentNonlinear_lower_nonpos findRoots slerpA mdc q0 q1 obbox0 obbox1 bbox0 bbox1
      tmin tmax d,
    boundSegmentNonlinear_upper_nonneg findRoots slerpA mdc q0 q1 obbox0 obbox1 bbox0 bbox1
      tmin tmax d⟩

theorem getD_ofFn {α : Type} (n : ℕ) (f : Fin n → α) (i : ℕ) (d : α) :
    (List.ofFn f).getD i d = if h : i < n then f ⟨i, h⟩ else d := by
  rcases Nat.lt_or_ge i n with h | h
  · rw [dif_pos h, List.getD_eq_getElem _ _ (by simpa using h), List.getElem_ofFn]
  · rw [dif_neg (Nat.not_lt.2 h), List.getD_eq_default _ _ (by simpa using h)]

theorem getD_set_self {α : Type} (l : List α) (i : ℕ) (a d : α) (h : i < l.length) :
    (l.set i a).getD i d = a := by
  rw [List.getD_eq_getElem _ _ (by simpa using h)]
  exact List.getElem_set_self (by simpa using h)

theorem getD_set_ne {α : Type} (l : List α) (i j : ℕ) (a d : α) (hne : i ≠ j) :
    (l.set i a).getD j d = l.getD j d := by
  rcases Nat.lt_or_ge j l.length with h | h
  · rw [List.getD_eq_getElem _ _ (by simpa using h), List.getD_eq_getElem _ _ h]
    exact List.getElem_set_ne hne _
  · rw [List.getD_eq_default _ _ (by simpa using h), List.getD_eq_default _ _ h]

/-- C7: an out-of-range time step index (`numTimeSteps ≤ t`) makes both
`setTransform` and `setQuaternionDecomposition` fail with the
invalid-operation error, the error carrying the input state unchanged
(every affine entry, every quaternion entry and the quaternion sequence's
allocation status are untouched). -/
theorem setters_out_of_range (deriveAffine : QDecomp → Aff3) (s : InstanceState)
    (xfm : Aff3) (qd : QDecomp) (t : ℕ) (ht : s.numTimeSteps ≤ t) :
    setTransform s xfm t = .error ((.invalidOperation, invalidTimestepMsg), s) ∧
    setQuaternionDecomposition deriveAffine s qd t =
      .error ((.invalidOperation, invalidTimestepMsg), s) := by
  constructor
  · simp [setTransform, ht]
  · simp [setQuaternionDecomposition, ht]

theorem setters_out_of_range_witness :
    oneStepState.numTimeSteps ≤ 1 ∧
    setTransform oneStepState affId 1 =
      .error ((.invalidOperation, invalidTimestepMsg), oneStepState) ∧
    setQuaternionDecomposition (fun _ => affId) oneStepState (fun _ _ => 0) 1 =
      .error ((.invalidOperation, invalidTimestepMsg), oneStepState) := by
  have h := setters_out_of_range (fun _ => affId) oneStepState affId (fun _ _ => 0) 1
    (by decide)
  exact ⟨by decide, h.1, h.2⟩

/-- C3: with at least one valid and at least one sentinel quaternion slot,
`commit` fails with the invalid-operation mixed-configuration error; the
error carries the input state unchanged, so the interpolation-mode field,
the cached `world2local0` and the `baseCommitted` ghost flag are exactly as
before the call — no mode is silently picked and the base commit is never
reached. -/
theorem commit_mixed_fails (rcpA : Aff3 → Aff3) (s : InstanceState) (l : List QEntry)
    (hq : s.quaternionDecomposition = some l) (hN : 2 ≤ s.numTimeSteps) (i j : ℕ)
    (hi : i < s.numTimeSteps) (hj : j < s.numTimeSteps)
    (hvi : (l.getD i qSentinel).isSome = true) (hsj : l.getD j qSentinel = qSentinel) :
    commit rcpA s = .error ((.invalidOperation, mixedMsg), s) := by
  have hnl : interpNonlinearFlag s = false := by
    rw [interpNonlinearFlag, hq]
    refine List.all_eq_false.2 ⟨j, List.mem_range.2 hj, ?_⟩
    intro hcontra
    rw [hsj] at hcontra
    simp [qSentinel] at hcontra
  have hlin : interpLinearFlag s = false := by
    rw [interpLinearFlag, hq]
    refine List.all_eq_false.2 ⟨i, List.mem_range.2 hi, ?_⟩
    intro hcontra
    rw [Option.isNone_iff_eq_none] at hcontra
    rw [hcontra] at hvi
    simp at hvi
  have hupd : updateInterpolationMode s = .error ((.invalidOperation, mixedMsg), s) := by
    rw [updateInterpolationMode, if_pos ⟨hlin, hnl⟩]
  unfold commit
  rw [hupd]

theorem commit_mixed_fails_witness :
    mixedState.quaternionDecomposition = some [some (fun _ _ => 0), qSentinel] ∧
    2 ≤ mixedState.numTimeSteps ∧ (0:ℕ) < mixedState.numTimeSteps ∧
    (1:ℕ) < mixedState.numTimeSteps ∧
    (([some (fun _ _ => (0:ℚ)), qSentinel].getD 0 qSentinel).isSome = true) ∧
    ([some (fun _ _ => (0:ℚ)), qSentinel].getD 1 qSentinel = qSentinel) ∧
    commit (fun a => a) mixedState = .error ((.invalidOperation, mixedMsg), mixedState) := by
  exact ⟨rfl, by decide, by decide, by decide, rfl, rfl,
    commit_mixed_fails (fun a => a) mixedState [some (fun _ _ => 0), qSentinel] rfl
      (by decide) 0 1 (by decide) (by decide) rfl rfl⟩

/-- C6 (amended): when both classification predicates hold simultaneously,
the defensive branch reports the failure through the same invalid-operation
error kind as caller misuse, distinguished only by its message. -/
theorem updateInterpolationMode_both_flags (s : InstanceState)
    (h1 : interpLinearFlag s = true) (h2 : interpNonlinearFlag s = true) :
    updateInterpolationMode s =
      .error ((.invalidOperation, "this should not happen."), s) := by
  rw [updateInterpolationMode, if_neg (by simp [h1]), if_pos ⟨h1, h2⟩]

theorem updateInterpolationMode_both_flags_witness :
    interpLinearFlag bothFlagsState = true ∧ interpNonlinearFlag bothFlagsState = true ∧
    updateInterpolationMode bothFlagsState =
      .error ((.invalidOperation, "this should not happen."), bothFlagsState) :=
  ⟨rfl, rfl, updateInterpolationMode_both_flags bothFlagsState rfl rfl⟩

/-- Counterexample to C6 as stated: on a state where both predicates hold,
the defensive branch raises an error whose kind is `invalidOperation` —
exactly the kind raised for caller misuse (out-of-range index), not a
distinct internal-invariant kind. -/
theorem updateInterpolationMode_claimC6_counterexample :
    interpLinearFlag bothFlagsState = true ∧ interpNonlinearFlag bothFlagsState = true ∧
    updateInterpolationMode bothFlagsState =
      .error ((RTCErrorKind.invalidOperation, "this should not happen."), bothFlagsState) ∧
    setTransform bothFlagsState affId 0 =
      .error ((RTCErrorKind.invalidOperation, invalidTimestepMsg), bothFlagsState) := by
  have h1 : interpLinearFlag bothFlagsState = true := rfl
  have h2 : interpNonlinearFlag bothFlagsState = true := rfl
  refine ⟨h1, h2, ?_, by simp [setTransform, bothFlagsState]⟩
  rw [updateInterpolationMode, if_neg (by simp [h1]), if_pos ⟨h1, h2⟩]

/-- C5 (amended): `preCommit` (re)builds the motion-derivative coefficients
for the `N-1` adjacent pairs exactly when the cached `interpolation` field
(set by the previous `commit`) equals NONLINEAR, leaving all other state
unchanged; the classification is not recomputed from the stored data. -/
theorem preCommit_rebuilds_iff_cached_nonlinear (s : InstanceState) :
    (preCommit s).motionDerivCoeffs =
      (if s.interpolation = .NONLINEAR then some (buildMDCs s) else s.motionDerivCoeffs) ∧
    (preCommit s).numTimeSteps = s.numTimeSteps ∧
    (preCommit s).local2world = s.local2world ∧
    (preCommit s).interpolation = s.interpolation ∧
    (preCommit s).quaternionDecomposition = s.quaternionDecomposition ∧
    (preCommit s).world2local0 = s.world2local0 := by
  unfold preCommit
  split <;> simp_all

/-- Counterexample to C5 as stated: on `staleModeState` the classification
computed from the stored data is nonlinear (the flags show it, and
`updateInterpolationMode` would select NONLINEAR), yet `preCommit` does not
build the motion-derivative coefficients because the cached mode field says
LINEAR — the cached field, not the data-derived classification, decides. -/
theorem preCommit_claimC5_counterexample :
    interpNonlinearFlag staleModeState = true ∧
    interpLinearFlag staleModeState = false ∧
    updateInterpolationMode staleModeState =
      .ok { staleModeState with interpolation := .NONLINEAR } ∧
    staleModeState.interpolation = .LINEAR ∧
    (preCommit staleModeState).motionDerivCoeffs = none := by
  have h1 : interpLinearFlag staleModeState = false := rfl
  have h2 : interpNonlinearFlag staleModeState = true := rfl
  refine ⟨h2, h1, ?_, rfl, ?_⟩
  · rw [updateInterpolationMode, if_neg (by simp [h2]), if_neg (by simp [h1])]
    rfl
  · simp only [preCommit]
    rw [if_neg (by decide)]
    rfl

/-- C8: resizing from `N` to `M ≠ N` time steps preserves the entries at
indices `[0, min N M)` of both sequences exactly, fills new affine entries
with the identity and new quaternion entries with the sentinel, and keeps
the two sequences index-aligned (both of length `M`). -/
theorem setNumTimeSteps_resize (s : InstanceState) (M : ℕ) (hMN : M ≠ s.numTimeSteps) :
    (setNumTimeSteps s M).numTimeSteps = M ∧
    (setNumTimeSteps s M).local2world.length = M ∧
    (∀ i, i < min s.numTimeSteps M →
      (setNumTimeSteps s M).local2world.getD i affId = s.local2world.getD i affId) ∧
    (∀ i, s.numTimeSteps ≤ i → i < M →
      (setNumTimeSteps s M).local2world.getD i affId = affId) ∧
    (s.quaternionDecomposition = none →
      (setNumTimeSteps s M).quaternionDecomposition = none) ∧
    (∀ l, s.quaternionDecomposition = some l →
      ∃ l2, (setNumTimeSteps s M).quaternionDecomposition = some l2 ∧ l2.length = M ∧
        (∀ i, i < min s.numTimeSteps M → l2.getD i qSentinel = l.getD i qSentinel) ∧
        (∀ i, s.numTimeSteps ≤ i → i < M → l2.getD i qSentinel = qSentinel)) := by
  refine ⟨?_, ?_, ?_, ?_, ?_, ?_⟩
  · simp only [setNumTimeSteps, if_neg hMN]
  · simp only [setNumTimeSteps, if_neg hMN]
    exact List.length_ofFn _
  · intro i hi
    simp only [setNumTimeSteps, if_neg hMN]
    rw [getD_ofFn, dif_pos (lt_of_lt_of_le hi (min_le_right _ _)),
      if_pos (lt_of_lt_of_le hi (min_le_left _ _))]
  · intro i hNi hiM
    simp only [setNumTimeSteps, if_neg hMN]
    rw [getD_ofFn, dif_pos hiM, if_neg (Nat.not_lt.2 hNi)]
  · intro h
    simp only [setNumTimeSteps, if_neg hMN, h]
    rfl
  · intro l hl
    simp only [setNumTimeSteps, if_neg hMN, hl, Option.map_some]
    refine ⟨_, rfl, List.length_ofFn _, ?_, ?_⟩
    · intro i hi
      rw [getD_ofFn, dif_pos (lt_of_lt_of_le hi (min_le_right _ _)),
        if_pos (lt_of_lt_of_le hi (min_le_left _ _))]
    · intro i hNi hiM
      rw [getD_ofFn, dif_pos hiM, if_neg (Nat.not_lt.2 hNi)]

theorem setNumTimeSteps_resize_witness :
    (3 ≠ oneStepState.numTimeSteps) ∧
    (setNumTimeSteps oneStepState 3).numTimeSteps = 3 ∧
    (setNumTimeSteps oneStepState 3).local2world.length = 3 ∧
    (∀ i, i < min oneStepState.numTimeSteps 3 →
      (setNumTimeSteps oneStepState 3).local2world.getD i affId =
        oneStepState.local2world.getD i affId) ∧
    (∀ i, oneStepState.numTimeSteps ≤ i → i < 3 →
      (setNumTimeSteps oneStepState 3).local2world.getD i affId = affId) ∧
    (oneStepState.quaternionDecomposition = none →
      (setNumTimeSteps oneStepState 3).quaternionDecomposition = none) := by
  have h := setNumTimeSteps_resize oneStepState 3 (by decide)
  exact ⟨by decide, h.1, h.2.1, h.2.2.1, h.2.2.2.1, h.2.2.2.2.1⟩

/-- C9 (amended): for a valid time step `t < N`, `setTransform` stores the
matrix at index `t`, invalidates (sets to the sentinel) the quaternion slot
at `t` when the quaternion sequence exists, leaves every other entry of
both sequences and all remaining fields unchanged — and performs no dirty
marking: the ghost `updated` flag is exactly as before the call
(`Instance::setTransform` never invokes `Geometry::update`). -/
theorem setTransform_in_range (s : InstanceState) (xfm : Aff3) (t : ℕ)
    (ht : t < s.numTimeSteps) (hw : wfB s = true) :
    ∃ r, setTransform s xfm t = .ok r ∧
      r.local2world.getD t affId = xfm ∧
      (∀ i, i ≠ t → r.local2world.getD i affId = s.local2world.getD i affId) ∧
      (s.quaternionDecomposition = none → r.quaternionDecomposition = none) ∧
      (∀ l, s.quaternionDecomposition = some l →
        ∃ l2, r.quaternionDecomposition = some l2 ∧ l2.getD t qSentinel = qSentinel ∧
          ∀ i, i ≠ t → l2.getD i qSentinel = l.getD i qSentinel) ∧
      r.numTimeSteps = s.numTimeSteps ∧ r.interpolation = s.interpolation ∧
      r.world2local0 = s.world2local0 ∧ r.motionDerivCoeffs = s.motionDerivCoeffs ∧
      r.updated = s.updated ∧ r.baseCommitted = s.baseCommitted := by
  rw [wfB, Bool.and_eq_true] at hw
  have hlen : s.local2world.length = s.numTimeSteps := beq_iff_eq.mp hw.1
  refine ⟨{ s with
      quaternionDecomposition := s.quaternionDecomposition.map (fun l => l.set t qSentinel),
      local2world := s.local2world.set t xfm },
    by rw [setTransform, if_neg (Nat.not_le.2 ht)], ?_, ?_, ?_, ?_, rfl, rfl, rfl,
    rfl, rfl, rfl⟩
  · exact getD_set_self _ _ _ _ (by rw [hlen]; exact ht)
  · intro i hi
    exact getD_set_ne _ _ _ _ _ (Ne.symm hi)
  · intro h
    simp only [h]
    rfl
  · intro l hl
    simp only [hl, Option.map_some]
    refine ⟨_, rfl, ?_, ?_⟩
    · have hlql : l.length = s.numTimeSteps := by
        have h2 := hw.2
        rw [hl] at h2
        simp only [Option.all_some] at h2
        exact beq_iff_eq.mp h2
      exact getD_set_self _ _ _ _ (by rw [hlql]; exact ht)
    · intro i hi
      exact getD_set_ne _ _ _ _ _ (Ne.symm hi)

theorem setTransform_in_range_witness :
    (0 < mixedState.numTimeSteps) ∧ wfB mixedState = true ∧
    (∃ r, setTransform mixedState affId 0 = .ok r ∧
      r.local2world.getD 0 affId = affId ∧
      (∀ i, i ≠ 0 → r.local2world.getD i affId = mixedState.local2world.getD i affId) ∧
      (mixedState.quaternionDecomposition = none → r.quaternionDecomposition = none) ∧
      (∀ l, mixedState.quaternionDecomposition = some l →
        ∃ l2, r.quaternionDecomposition = some l2 ∧ l2.getD 0 qSentinel = qSentinel ∧
          ∀ i, i ≠ 0 → l2.getD i qSentinel = l.getD i qSentinel) ∧
      r.numTimeSteps = mixedState.numTimeSteps ∧ r.interpolation = mixedState.interpolation ∧
      r.world2local0 = mixedState.world2local0 ∧
      r.motionDerivCoeffs = mixedState.motionDerivCoeffs ∧
      r.updated = mixedState.updated ∧ r.baseCommitted = mixedState.baseCommitted) := by
  refine ⟨by decide, by decide, setTransform_in_range mixedState affId 0 (by decide)
    (by decide)⟩

/-- Counterexample to C9 as stated: a successful `setTransform` call leaves
the ghost dirty flag `updated` false — `Instance::setTransform` contains no
call to the dirty-marking hook `Geometry::update`, so the "marks containing
geometry dirty" side effect claimed by the spec does not occur in this
function. -/
theorem setTransform_claimC9_counterexample :
    cleanState.updated = false ∧
    setTransform cleanState affId 0 = .ok cleanState ∧
    (∀ r, setTransform cleanState affId 0 = .ok r → r.updated = false) := by
  have hok : setTransform cleanState affId 0 = .ok cleanState := rfl
  refine ⟨rfl, hok, ?_⟩
  intro r hr
  have h2 := hr.symm.trans hok
  rw [Except.ok.inj h2]
  rfl

theorem truncQ_intCast (n : ℤ) : truncQ (n : ℚ) = n := by
  unfold truncQ
  split
  · exact Int.floor_intCast n
  · exact Int.ceil_intCast n

theorem truncQ_nonneg (q : ℚ) (h : 0 ≤ q) : 0 ≤ truncQ q := by
  unfold truncQ
  rw [if_pos h]
  exact Int.floor_nonneg.2 h

theorem truncQ_le_floor (a b : ℚ) (hab : a ≤ b) (hb : 0 ≤ b) : truncQ a ≤ ⌊b⌋ := by
  unfold truncQ
  split
  · exact Int.floor_le_floor hab
  · calc ⌈a⌉ ≤ 0 := Int.ceil_le.mpr (by exact_mod_cast (by linarith : a ≤ 0))
      _ ≤ ⌊b⌋ := Int.floor_nonneg.2 hb

theorem ceilQ_nonpos (a : ℚ) (h : a ≤ 0) : ⌈a⌉ ≤ 0 :=
  Int.ceil_le.mpr (by exact_mod_cast h)

theorem floorQ_nonpos (a : ℚ) (h : a ≤ 0) : ⌊a⌋ ≤ 0 :=
  le_trans (Int.floor_le_ceil a) (ceilQ_nonpos a h)

theorem lerpB_zero (a b : BBox3) : lerpB a b 0 = a := by
  refine BBox3.ext ?_ ?_ <;> funext d <;> simp [lerpB, lerpV, lerpQ]

theorem lerpB_one (a b : BBox3) : lerpB a b 1 = b := by
  refine BBox3.ext ?_ ?_ <;> funext d <;> simp [lerpB, lerpV, lerpQ]

theorem boundSegment_lower_nonpos (s : InstanceState) (findRoots : RootFinder)
    (slerpA : SlerpFn) (itime : ℤ) (obbox0 obbox1 bbox0 bbox1 : BBox3)
    (tmin tmax : ℚ) (d : Fin 3) :
    (boundSegment s findRoots slerpA itime obbox0 obbox1 bbox0 bbox1 tmin tmax).lower d ≤ 0 := by
  unfold boundSegment
  split
  · exact boundSegmentNonlinear_lower_nonpos _ _ _ _ _ _ _ _ _ _ _ _
  · exact boundSegmentLinear_lower_nonpos _ _ _ _ _ _ _ _ _

theorem boundSegment_upper_nonneg (s : InstanceState) (findRoots : RootFinder)
    (slerpA : SlerpFn) (itime : ℤ) (obbox0 obbox1 bbox0 bbox1 : BBox3)
    (tmin tmax : ℚ) (d : Fin 3) :
    0 ≤ (boundSegment s findRoots slerpA itime obbox0 obbox1 bbox0 bbox1 tmin tmax).upper d := by
  unfold boundSegment
  split
  · exact boundSegmentNonlinear_upper_nonneg _ _ _ _ _ _ _ _ _ _ _ _
  · exact boundSegmentLinear_upper_nonneg _ _ _ _ _ _ _ _ _

/-- C10: `nonlinearBounds` (which returns a box pair unconditionally and
has no error channel) is well defined only under the implicit precondition
checked by `assert(iupperc - ilowerc > 0)`: (1) for a query range wholly
outside the local time range the clamped segment range is empty and the
assertion predicate is violated; (2) for a zero-size query range the
divisor `time_range.size()` of the per-segment fractions is zero; (3) for
a zero-size local time range the normalization itself divides by zero (in
the exact model those quotients collapse to 0). -/
theorem nonlinearBounds_implicit_precondition :
    (∀ q : NBInput, q.geomTimeRange.1 < q.geomTimeRange.2 → 0 ≤ q.geomTimeSegments →
      (q.timeRange.2 < q.geomTimeRange.1 ∨ q.geomTimeRange.2 < q.timeRange.1) →
      nbIupperc q - nbIlowerc q ≤ 0) ∧
    (∀ q : NBInput, q.timeRange.2 = q.timeRange.1 → nbTrSize q = 0) ∧
    (∀ q : NBInput, q.geomTimeRange.2 = q.geomTimeRange.1 →
      nbTrLower q = 0 ∧ nbTrUpper q = 0 ∧ nbTrSize q = 0) := by
  refine ⟨?_, ?_, ?_⟩
  · intro q hg hS hout
    have hgs : (0:ℚ) < q.geomTimeRange.2 - q.geomTimeRange.1 := by linarith
    rcases hout with hbelow | habove
    · have htrU : nbTrUpper q < 0 := by
        rw [nbTrUpper]
        exact div_neg_of_neg_of_pos (by linarith) hgs
      have hup : nbUpper q ≤ 0 := mul_nonpos_of_nonpos_of_nonneg (le_of_lt htrU) hS
      have hiuf : nbIupperf q ≤ 0 := ceilQ_nonpos _ hup
      have hiufc : nbIupperfc q ≤ 0 := by
        refine le_trans (min_le_left _ _) ?_
        exact_mod_cast hiuf
      have hiuc : nbIupperc q ≤ 0 := by
        unfold nbIupperc truncQ
        split
        · exact floorQ_nonpos _ hiufc
        · exact ceilQ_nonpos _ hiufc
      have hilc : 0 ≤ nbIlowerc q := truncQ_nonneg _ (le_max_left _ _)
      omega
    · have htrL : 1 < nbTrLower q := by
        rw [nbTrLower, lt_div_iff₀ hgs]
        linarith
      have hlow : q.geomTimeSegments ≤ nbLower q := by
        rw [nbLower]
        nlinarith
      have hculow : (0:ℚ) ≤ (nbIlowerf q : ℚ) := by
        have := Int.le_floor.2 (le_trans hS hlow)
        exact_mod_cast Int.floor_nonneg.2 (le_trans hS hlow)
      have hilfc : nbIlowerfc q = (nbIlowerf q : ℚ) := max_eq_right hculow
      have hilc : nbIlowerc q = nbIlowerf q := by
        rw [nbIlowerc, hilfc, truncQ_intCast]
      have hfS : ⌊q.geomTimeSegments⌋ ≤ nbIlowerf q :=
        Int.floor_le_floor hlow
      have hiuc : nbIupperc q ≤ ⌊q.geomTimeSegments⌋ :=
        truncQ_le_floor _ _ (min_le_right _ _) hS
      omega
  · intro q h
    rw [nbTrSize, nbTrUpper, nbTrLower, div_sub_div_same, h]
    simp
  · intro q h
    have hz : q.geomTimeRange.2 - q.geomTimeRange.1 = 0 := by rw [h]; ring
    refine ⟨?_, ?_, ?_⟩
    · rw [nbTrLower, hz, div_zero]
    · rw [nbTrUpper, hz, div_zero]
    · rw [nbTrSize, nbTrUpper, nbTrLower, hz, div_zero, div_zero, sub_zero]

theorem nonlinearBounds_implicit_precondition_witness :
    ((0:ℚ) < 1 ∧ (0:ℚ) ≤ 1 ∧ (1:ℚ) < 2 ∧
      nbIupperc ⟨(2, 3), (0, 1), 1⟩ - nbIlowerc ⟨(2, 3), (0, 1), 1⟩ ≤ 0) ∧
    ((1/2 : ℚ) = 1/2 ∧ nbTrSize ⟨(1/2, 1/2), (0, 1), 1⟩ = 0) ∧
    ((1:ℚ) = 1 ∧ nbTrLower ⟨(0, 1), (1, 1), 2⟩ = 0 ∧ nbTrUpper ⟨(0, 1), (1, 1), 2⟩ = 0 ∧
      nbTrSize ⟨(0, 1), (1, 1), 2⟩ = 0) := by
  have h := nonlinearBounds_implicit_precondition
  have h1 := h.1 ⟨(2, 3), (0, 1), 1⟩ (by norm_num) (by norm_num) (by norm_num)
  have h2 := h.2.1 ⟨(1/2, 1/2), (0, 1), 1⟩ (by norm_num)
  have h3 := h.2.2 ⟨(0, 1), (1, 1), 2⟩ (by norm_num)
  exact ⟨⟨by norm_num, by norm_num, by norm_num, h1⟩, ⟨rfl, h2⟩,
    ⟨rfl, h3.1, h3.2.1, h3.2.2⟩⟩

/-- C4: for a query time range exactly equal to one local segment `k` of
the instance's keyframe grid, the multi-segment path of `nonlinearBounds`,
evaluated as a function on that input, produces exactly the same bounds
pair as the single-segment fast path, and the fast path is the branch the
code actually takes (the iteration range spans exactly one segment). -/
theorem nonlinearBounds_single_segment_paths_agree
    (s : InstanceState) (findRoots : RootFinder) (slerpA : SlerpFn)
    (boundsFn : ℤ → ℤ → ℚ → BBox3) (bounds2Fn : ℤ → ℤ → BBox3) (objB : ℤ → BBox3)
    (q : NBInput) (k : ℤ) (hN : 2 ≤ s.numTimeSteps)
    (hS : q.geomTimeSegments = (s.numTimeSteps : ℚ) - 1)
    (hg : q.geomTimeRange.1 < q.geomTimeRange.2)
    (hk0 : 0 ≤ k) (hk1 : (k : ℚ) < q.geomTimeSegments)
    (htr1 : q.timeRange.1 = q.geomTimeRange.1 +
      ((k : ℚ) / q.geomTimeSegments) * (q.geomTimeRange.2 - q.geomTimeRange.1))
    (htr2 : q.timeRange.2 = q.geomTimeRange.1 +
      (((k : ℚ) + 1) / q.geomTimeSegments) * (q.geomTimeRange.2 - q.geomTimeRange.1)) :
    nbIupperIter q - nbIlowerIter q = 1 ∧
    nbMulti s findRoots slerpA boundsFn bounds2Fn objB q =
      nbSingle s findRoots slerpA boundsFn objB q ∧
    nonlinearBounds s findRoots slerpA boundsFn bounds2Fn objB q =
      nbSingle s findRoots slerpA boundsFn objB q := by
  have hgs : q.geomTimeRange.2 - q.geomTimeRange.1 ≠ 0 :=
    ne_of_gt (by linarith : (0:ℚ) < q.geomTimeRange.2 - q.geomTimeRange.1)
  have hNQ : (2:ℚ) ≤ (s.numTimeSteps : ℚ) := by exact_mod_cast hN
  have hSpos : 0 < q.geomTimeSegments := by rw [hS]; linarith
  have hSne : q.geomTimeSegments ≠ 0 := ne_of_gt hSpos
  have hk1q : (k:ℚ) < (s.numTimeSteps:ℚ) - 1 := by rw [← hS]; exact hk1
  have hkZ : k < (s.numTimeSteps : ℤ) - 1 := by exact_mod_cast hk1q
  have htrL : nbTrLower q = (k:ℚ) / q.geomTimeSegments := by
    rw [nbTrLower, htr1, add_sub_cancel_left, mul_div_assoc, div_self hgs, mul_one]
  have htrU : nbTrUpper q = ((k:ℚ) + 1) / q.geomTimeSegments := by
    rw [nbTrUpper, htr2, add_sub_cancel_left, mul_div_assoc, div_self hgs, mul_one]
  have htrS : nbTrSize q = 1 / q.geomTimeSegments := by
    rw [nbTrSize, htrU, htrL, div_sub_div_same, add_sub_cancel_left]
  have hlow : nbLower q = (k:ℚ) := by
    rw [nbLower, htrL, div_mul_cancel₀ _ hSne]
  have hup : nbUpper q = (k:ℚ) + 1 := by
    rw [nbUpper, htrU, div_mul_cancel₀ _ hSne]
  have hilf : nbIlowerf q = k := by rw [nbIlowerf, hlow, Int.floor_intCast]
  have hiuf : nbIupperf q = k + 1 := by
    rw [nbIupperf, hup, show ((k:ℚ) + 1) = (((k + 1 : ℤ)) : ℚ) by push_cast; ring,
      Int.ceil_intCast]
  have hilfc : nbIlowerfc q = (k:ℚ) := by
    rw [nbIlowerfc, hilf]
    exact max_eq_right (by exact_mod_cast hk0)
  have hk1' : (k:ℚ) + 1 ≤ q.geomTimeSegments := by
    rw [hS]
    have h2 : k + 1 ≤ (s.numTimeSteps:ℤ) - 1 := by omega
    have h3 : ((k + 1 : ℤ) : ℚ) ≤ (((s.numTimeSteps:ℤ) - 1 : ℤ) : ℚ) := by exact_mod_cast h2
    push_cast at h3
    linarith
  have hiufc : nbIupperfc q = (k:ℚ) + 1 := by
    rw [nbIupperfc, hiuf, show (((k + 1 : ℤ)) : ℚ) = (k:ℚ) + 1 by push_cast; ring]
    exact min_eq_left hk1'
  have hilc : nbIlowerc q = k := by rw [nbIlowerc, hilfc, truncQ_intCast]
  have hiuc : nbIupperc q = k + 1 := by
    rw [nbIupperc, hiufc, show ((k:ℚ) + 1) = (((k + 1 : ℤ)) : ℚ) by push_cast; ring,
      truncQ_intCast]
  have hili : nbIlowerIter q = k := by
    rw [nbIlowerIter, hilf]
    exact max_eq_right (by omega)
  have htS : truncQ q.geomTimeSegments = (s.numTimeSteps : ℤ) - 1 := by
    rw [hS, show ((s.numTimeSteps:ℚ) - 1) = (((s.numTimeSteps:ℤ) - 1 : ℤ) : ℚ) by
      push_cast; ring, truncQ_intCast]
  have hiui : nbIupperIter q = k + 1 := by
    rw [nbIupperIter, hiuf, htS]
    exact min_eq_left (by omega)
  have hcond : nbIupperIter q - nbIlowerIter q = 1 := by rw [hiui, hili]; ring
  have hzero1 : nbLower q - nbIlowerfc q = 0 := by rw [hlow, hilfc]; ring
  have hzero2 : nbIupperfc q - nbUpper q = 0 := by rw [hiufc, hup]; ring
  have hmax1 : max 0 (nbLower q - nbIlowerfc q) = 0 := by rw [hzero1]; exact max_self 0
  have hmax2 : max 0 (nbIupperfc q - nbUpper q) = 0 := by rw [hzero2]; exact max_self 0
  have hfk0 : (((k:ℤ):ℚ) / q.geomTimeSegments - nbTrLower q) / nbTrSize q = 0 := by
    rw [htrL, sub_self, zero_div]
  have hfk1 : (((k + 1 : ℤ):ℚ) / q.geomTimeSegments - nbTrLower q) / nbTrSize q = 1 := by
    rw [htrL, htrS]
    push_cast
    rw [div_sub_div_same, add_sub_cancel_left]
    exact div_self (one_div_ne_zero hSne)
  have hksub : (k + 1 - 1 : ℤ) = k := by ring
  have hicc1 : intIcc (k + 1) k = [] := by
    rw [intIcc, show (k + 1 - (k + 1) : ℤ) = 0 by ring]
    rfl
  have hicc2 : intIcc (k + 1) (k + 1) = [k + 1] := by
    rw [intIcc, show (k + 1 + 1 - (k + 1) : ℤ) = 1 by ring]
    rw [show Int.toNat 1 = 1 from rfl, List.range_succ, List.range_zero, List.nil_append,
      List.map_cons, List.map_nil]
    norm_num
  have hmaxlo : max (1:ℤ) (k + 1) = k + 1 := max_eq_right (by omega)
  have hminhi : min ((s.numTimeSteps:ℤ) - 1) (k + 1) = k + 1 := min_eq_right (by omega)
  have hdelta : ∀ D : BBox3,
      (∀ dd : Fin 3, D.lower dd ≤ 0) → (∀ dd : Fin 3, 0 ≤ D.upper dd) →
      (BBox3.mk (fun dd => min (zeroBox.lower dd) (D.lower dd))
        (fun dd => max (zeroBox.upper dd) (D.upper dd))) = D := by
    intro D hl hu
    refine BBox3.ext ?_ ?_ <;> funext dd
    · exact min_eq_right (hl dd)
    · exact max_eq_right (hu dd)
  have hs1 : nbSingle s findRoots slerpA boundsFn objB q =
      ⟨addDelta (boundsFn k (k + 1) 0)
        (boundSegment s findRoots slerpA k (objB k) (objB (k + 1))
          (boundsFn k (k + 1) 0) (boundsFn (k + 1) k 0) 0 1),
       addDelta (boundsFn (k + 1) k 0)
        (boundSegment s findRoots slerpA k (objB k) (objB (k + 1))
          (boundsFn k (k + 1) 0) (boundsFn (k + 1) k 0) 0 1)⟩ := by
    simp only [nbSingle, hmax1, hmax2, hilc, hiuc, hfk0, hfk1, lerpB_zero, lerpB_one,
      sub_zero]
  have hm1 : nbMulti s findRoots slerpA boundsFn bounds2Fn objB q =
      ⟨addDelta (boundsFn k (k + 1) 0)
        (boundSegment s findRoots slerpA k (objB k) (objB (k + 1))
          (boundsFn k (k + 1) 0) (boundsFn (k + 1) k 0) 0 1),
       addDelta (boundsFn (k + 1) k 0)
        (boundSegment s findRoots slerpA k (objB k) (objB (k + 1))
          (boundsFn k (k + 1) 0) (boundsFn (k + 1) k 0) 0 1)⟩ := by
    simp only [nbMulti, hili, hiui, hzero1, hzero2, hilc, hiuc, hksub, hicc1, hicc2,
      hmaxlo, hminhi, List.foldl_nil, List.foldl_cons, hmax1, hmax2, max_self, sub_zero,
      ite_self, eq_self_iff_true, if_true, hfk0, hfk1, lerpB_zero, lerpB_one]
    rw [hdelta _ (fun dd => boundSegment_lower_nonpos _ _ _ _ _ _ _ _ _ _ dd)
      (fun dd => boundSegment_upper_nonneg _ _ _ _ _ _ _ _ _ _ dd)]
  refine ⟨hcond, hm1.trans hs1.symm, ?_⟩
  rw [nonlinearBounds, if_pos hcond, hs1]

theorem nonlinearBounds_single_segment_paths_agree_witness :
    2 ≤ staleModeState.numTimeSteps ∧
    c4q.geomTimeSegments = (staleModeState.numTimeSteps : ℚ) - 1 ∧
    c4q.geomTimeRange.1 < c4q.geomTimeRange.2 ∧
    (0:ℤ) ≤ 0 ∧ ((0:ℤ) : ℚ) < c4q.geomTimeSegments ∧
    c4q.timeRange.1 = c4q.geomTimeRange.1 +
      (((0:ℤ) : ℚ) / c4q.geomTimeSegments) * (c4q.geomTimeRange.2 - c4q.geomTimeRange.1) ∧
    c4q.timeRange.2 = c4q.geomTimeRange.1 +
      ((((0:ℤ) : ℚ) + 1) / c4q.geomTimeSegments) * (c4q.geomTimeRange.2 - c4q.geomTimeRange.1) ∧
    (nbIupperIter c4q - nbIlowerIter c4q = 1 ∧
     nbMulti staleModeState c4findRoots c4slerp (fun _ _ _ => wBox) (fun _ _ => wBox)
        (fun _ => wBox) c4q =
       nbSingle staleModeState c4findRoots c4slerp (fun _ _ _ => wBox) (fun _ => wBox) c4q ∧
     nonlinearBounds staleModeState c4findRoots c4slerp (fun _ _ _ => wBox) (fun _ _ => wBox)
        (fun _ => wBox) c4q =
       nbSingle staleModeState c4findRoots c4slerp (fun _ _ _ => wBox) (fun _ => wBox) c4q) := by
  have h1 : 2 ≤ staleModeState.numTimeSteps := by decide
  have h2 : c4q.geomTimeSegments = (staleModeState.numTimeSteps : ℚ) - 1 := by
    show (1:ℚ) = ((2:ℕ) : ℚ) - 1
    norm_num
  have h3 : c4q.geomTimeRange.1 < c4q.geomTimeRange.2 := by
    show (0:ℚ) < 1
    norm_num
  have h4 : (0:ℤ) ≤ 0 := le_refl 0
  have h5 : ((0:ℤ) : ℚ) < c4q.geomTimeSegments := by
    show ((0:ℤ) : ℚ) < 1
    norm_num
  have h6 : c4q.timeRange.1 = c4q.geomTimeRange.1 +
      (((0:ℤ) : ℚ) / c4q.geomTimeSegments) * (c4q.geomTimeRange.2 - c4q.geomTimeRange.1) := by
    show (0:ℚ) = 0 + (((0:ℤ) : ℚ) / 1) * (1 - 0)
    norm_num
  have h7 : c4q.timeRange.2 = c4q.geomTimeRange.1 +
      ((((0:ℤ) : ℚ) + 1) / c4q.geomTimeSegments) * (c4q.geomTimeRange.2 - c4q.geomTimeRange.1) := by
    show (1:ℚ) = 0 + ((((0:ℤ) : ℚ) + 1) / 1) * (1 - 0)
    norm_num
  exact ⟨h1, h2, h3, h4, h5, h6, h7,
    nonlinearBounds_single_segment_paths_agree staleModeState c4findRoots c4slerp
      (fun _ _ _ => wBox) (fun _ _ => wBox) (fun _ => wBox) c4q 0 h1 h2 h3 h4 h5 h6 h7⟩

end EmbreeInstance
